import Mathlib

/-!
Verification of the structable struct-to-table mapper (Masterminds/structable).

The Go source (src/structable.go) is shallowly embedded: a Go record (an
annotated struct reached through the reflect package) becomes a list of
named, typed field slots; the DbRecorder becomes an explicit state record;
each CRUD method becomes a function from the recorder state and the
response of the external execution handle to the emitted statements, the
updated state and an optional error string.  The external statement
builder (squirrel) is modelled only where the generated SQL text is
observed: its Eq map rendering sorts the column names, as the real
library does.
-/

namespace Structable

/-- Element types a struct field can hold in the fragment we model. -/
inductive GoTy where
  | int
  | str
deriving DecidableEq, Repr

/-- A Go value as seen through the reflect package: an int, a string, or a
pointer that is either nil or points at a value (the pointee type is kept
so that allocation via reflect.New can produce the zero element). -/
inductive GoValue where
  | vint (n : Int)
  | vstr (s : String)
  | vptrNone (ty : GoTy)
  | vptrSome (ty : GoTy) (v : GoValue)
deriving DecidableEq, Repr

/-- The zero value of a base element type, produced by reflect.New. -/
def zeroBase : GoTy → GoValue
  | .int => .vint 0
  | .str => .vstr ""

/-- One struct field of a Record: its Go field name, the value of its
stbl tag (empty string when the field carries no stbl tag), whether
reflect reports it as settable (CanSet), and its current value. -/
structure StructField where
  name : String
  tag : String
  canSet : Bool
  value : GoValue
deriving DecidableEq, Repr

/-- A Record is a struct: an ordered list of fields. -/
def GoRecord := List StructField
deriving DecidableEq, Repr

/-- Internal representation of a database column and its relation to a
struct field (struct `field` in structable.go). -/
structure field where
  name : String
  column : String
  isKey : Bool
  isAuto : Bool
deriving DecidableEq, Repr

/-- The DbRecorder state: bound table, scanned field descriptors, the key
subset, the bound record and the dialect flavor.  The db handle and the
squirrel builder are external collaborators and appear as parameters of
the operations instead. -/
structure DbRecorder where
  table : String
  fields : List field
  key : List field
  record : GoRecord
  flavor : String
deriving DecidableEq, Repr

/-- reflect Value.FieldByName followed by Interface: the current value of
the first field with the given name (the zero Value is modelled as
vint 0; it is never reached for names coming from a scan of the same
record). -/
def fieldValue : GoRecord → String → GoValue
  | [], _ => .vint 0
  | sf :: rest, n => if sf.name == n then sf.value else fieldValue rest n

/-- reflect Value.CanSet of the named field; a missing field is the zero
Value, which cannot be set. -/
def canSetField : GoRecord → String → Bool
  | [], _ => false
  | sf :: rest, n => if sf.name == n then sf.canSet else canSetField rest n

/-- Write a value into the named field (reflect Value.Set / SetInt). -/
def setField : GoRecord → String → GoValue → GoRecord
  | [], _, _ => []
  | sf :: rest, n, v =>
    if sf.name == n then { sf with value := v } :: rest
    else sf :: setField rest n v

/-- field.SetInt: store the driver-reported id in the named (int) field. -/
def setFieldInt (r : GoRecord) (n : String) (id : Int) : GoRecord :=
  setField r n (.vint id)

/-- reflect: the field is a pointer and it is nil. -/
def isNilPtr : GoValue → Bool
  | .vptrNone _ => true
  | _ => false

/-- The zero value of a field's type (used by reflect.New on the record
type when the List engine allocates a fresh record per row). -/
def zeroOf : GoValue → GoValue
  | .vint _ => .vint 0
  | .vstr _ => .vstr ""
  | .vptrNone ty => .vptrNone ty
  | .vptrSome ty _ => .vptrNone ty

/-- A fresh zero record of the same concrete type as `r`. -/
def zeroRecord (r : GoRecord) : GoRecord :=
  r.map (fun sf => { sf with value := zeroOf sf.value })

/-- Split a character list at every comma (strings.Split on a single
comma separator: an empty input yields one empty piece). -/
def splitCommaAux : List Char → List Char → List (List Char)
  | [], acc => [acc.reverse]
  | c :: rest, acc =>
    if c == ',' then acc.reverse :: splitCommaAux rest []
    else splitCommaAux rest (c :: acc)

/-- Go strings.Split(s, ",") over the characters of s. -/
def splitComma (s : String) : List String :=
  (splitCommaAux s.data []).map (fun l => String.mk l)

/-- The whitespace characters strings.TrimSpace removes (the ASCII
subset, which is all a stbl tag contains). -/
def isSpaceChar (c : Char) : Bool :=
  c == ' ' || c == '\t' || c == '\n' || c == '\r' || c == '\x0b' || c == '\x0c'

/-- Go strings.TrimSpace: drop leading and trailing whitespace. -/
def trimSpace (s : String) : String :=
  String.mk (((s.data.dropWhile isSpaceChar).reverse.dropWhile isSpaceChar).reverse)

/-- parseTag from structable.go: split the stbl tag on commas; the dead
defensive branch returning the field name is kept verbatim. -/
def parseTag (fieldName tag : String) : List String :=
  let parts := splitComma tag
  if parts.length == 0 then [fieldName] else parts

/-- How many of the trailing tag tokens, whitespace-trimmed, name the
primary-key keyword (each match appends the field to the keys list). -/
def countKeyParts (parts : List String) : Nat :=
  parts.countP (fun p =>
    let q := trimSpace p
    q == "PRIMARY_KEY" || q == "PRIMARY KEY")

/-- Whether any trailing tag token, whitespace-trimmed, names the
auto-increment keyword. -/
def hasAutoPart (parts : List String) : Bool :=
  parts.any (fun p =>
    let q := trimSpace p
    q == "AUTO_INCREMENT" || q == "SERIAL" || q == "AUTO INCREMENT")

/-- scanFields from structable.go as a function of the scanned record
alone: returns the descriptors built by this scan and the keys list built
by this scan (a field tagged PRIMARY_KEY twice is appended to keys
twice, as the Go loop does). -/
def scanFieldsAux : GoRecord → List field × List field
  | [] => ([], [])
  | sf :: rest =>
    let (fs, ks) := scanFieldsAux rest
    if sf.tag == "" then (fs, ks)
    else
      let parts := parseTag sf.name sf.tag
      let tl := parts.tail
      let f : field :=
        { name := sf.name
          column := parts.headD sf.name
          isKey := decide (0 < countKeyParts tl)
          isAuto := hasAutoPart tl }
      (f :: fs, List.replicate (countKeyParts tl) f ++ ks)

/-- New(db, flavor): a fresh recorder with the given dialect flavor. -/
def mkRecorder (flavor : String) : DbRecorder :=
  { table := "", fields := [], key := [], record := [], flavor := flavor }

/-- DbRecorder.Bind: store the table name, scan the record's tags
(appending the scanned descriptors to the existing list, as the Go
scanFields does), and store the record reference.  The keys list is
assigned inside the scan loop, so it is replaced only when the scan
visits at least one tagged field. -/
def bind (s : DbRecorder) (tableName : String) (ar : GoRecord) : DbRecorder :=
  let (newFields, newKeys) := scanFieldsAux ar
  { s with
      table := tableName
      fields := s.fields ++ newFields
      key := if newFields.isEmpty then s.key else newKeys
      record := ar }

/-- New(db, flavor).Bind(t, r): the recorder produced by binding a record
to a fresh recorder. -/
def bindNew (flavor tableName : String) (r : GoRecord) : DbRecorder :=
  bind (mkRecorder flavor) tableName r

/-- DbRecorder.Key: the column names of the key fields. -/
def Key (s : DbRecorder) : List String :=
  s.key.map (fun f => f.column)

/-- The loop of DbRecorder.colList: walk the descriptors, skipping keys
when withKeys is false and nil pointer fields when omitNil is true. -/
def colListGo (r : GoRecord) (withKeys omitNil : Bool) : List field → List String
  | [] => []
  | f :: rest =>
    if !withKeys && f.isKey then colListGo r withKeys omitNil rest
    else if omitNil && isNilPtr (fieldValue r f.name) then colListGo r withKeys omitNil rest
    else f.column :: colListGo r withKeys omitNil rest

/-- DbRecorder.colList. -/
def colList (s : DbRecorder) (withKeys omitNil : Bool) : List String :=
  colListGo s.record withKeys omitNil s.fields

/-- DbRecorder.Columns(includeKeys) = colList(includeKeys, false). -/
def Columns (s : DbRecorder) (includeKeys : Bool) : List String :=
  colList s includeKeys false

/-- The loop of DbRecorder.colValLists: skip keys when withKeys is false,
skip autos when withAutos is false, skip nil pointers; for a non-nil
pointer the value stored is the pointer itself, otherwise the field
value, which in both cases is the value FieldByName yields. -/
def colValGo (r : GoRecord) (withKeys withAutos : Bool) : List field → List String × List GoValue
  | [] => ([], [])
  | f :: rest =>
    if !withKeys && f.isKey then colValGo r withKeys withAutos rest
    else if !withAutos && f.isAuto then colValGo r withKeys withAutos rest
    else
      match fieldValue r f.name with
      | .vptrNone _ => colValGo r withKeys withAutos rest
      | v =>
        let (cs, vs) := colValGo r withKeys withAutos rest
        (f.column :: cs, v :: vs)

/-- DbRecorder.colValLists. -/
def colValLists (s : DbRecorder) (withKeys withAutos : Bool) : List String × List GoValue :=
  colValGo s.record withKeys withAutos s.fields

/-- Go map assignment m[k] = v: overwrite the entry for k when present,
otherwise add one. -/
def mapInsert : List (String × GoValue) → String → GoValue → List (String × GoValue)
  | [], k, v => [(k, v)]
  | (k0, v0) :: rest, k, v =>
    if k0 == k then (k0, v) :: rest
    else (k0, v0) :: mapInsert rest k v

/-- Build a Go map[string]interface\x7b\x7d by assigning the pairs in order. -/
def mapFromPairs (l : List (String × GoValue)) : List (String × GoValue) :=
  l.foldl (fun m p => mapInsert m p.1 p.2) []

/-- DbRecorder.WhereIds: a map from each key column to the current value
of its field, built by iterating the key descriptors in order. -/
def whereIds (s : DbRecorder) : List (String × GoValue) :=
  mapFromPairs (s.key.map (fun f => (f.column, fieldValue s.record f.name)))

/-- DbRecorder.updateFields: the SetMap for an Update, built from
colValLists(false, true): keys excluded, autos included. -/
def updateFields (s : DbRecorder) : List (String × GoValue) :=
  let cv := colValLists s false true
  mapFromPairs (cv.1.zip cv.2)

/-- Strict codepoint-wise order on character lists (sort.Strings compares
strings byte-wise; on the ASCII column names this coincides). -/
def charListLt : List Char → List Char → Bool
  | [], [] => false
  | [], _ :: _ => true
  | _ :: _, [] => false
  | a :: as, b :: bs =>
    if a.toNat < b.toNat then true
    else if b.toNat < a.toNat then false
    else charListLt as bs

/-- Strict string order used when sorting map keys. -/
def strLt (a b : String) : Bool :=
  charListLt a.data b.data

/-- Insertion into a column-name-sorted pair list (squirrel sorts the
keys of an Eq map before rendering). -/
def insSorted (p : String × GoValue) : List (String × GoValue) → List (String × GoValue)
  | [] => [p]
  | q :: rest => if strLt p.1 q.1 then p :: q :: rest else q :: insSorted p rest

/-- Sort a pair list by column name. -/
def sortPairs (l : List (String × GoValue)) : List (String × GoValue) :=
  l.foldr insSorted []

/-- Model of squirrel's Eq map rendering with Question placeholders: one
equality test per map entry, joined by AND, with the column names sorted
as the library sorts them; the argument list follows the same order. -/
def renderEq (m : List (String × GoValue)) : String × List GoValue :=
  let sorted := sortPairs m
  (String.intercalate " AND " (sorted.map (fun p => p.1 ++ " = ?")),
   sorted.map (fun p => p.2))

/-- A scan destination handed to the driver: the address of a non-pointer
field, or the pointer held by a pointer field. -/
inductive FieldRef where
  | addr (name : String)
  | ptrv (name : String)
deriving DecidableEq, Repr

/-- The loop of DbRecorder.FieldReferences: skip keys when withKeys is
false; a non-pointer field contributes its address; a pointer field
contributes the pointer itself, a nil pointer being first set to a newly
allocated zero element of its pointee type (this mutates the record). -/
def fieldReferencesGo (withKeys : Bool) : List field → GoRecord → List FieldRef × GoRecord
  | [], r => ([], r)
  | f :: rest, r =>
    if !withKeys && f.isKey then fieldReferencesGo withKeys rest r
    else
      match fieldValue r f.name with
      | .vptrNone ty =>
        let r1 := setField r f.name (.vptrSome ty (zeroBase ty))
        let (refs, r2) := fieldReferencesGo withKeys rest r1
        (.ptrv f.name :: refs, r2)
      | .vptrSome _ _ =>
        let (refs, r2) := fieldReferencesGo withKeys rest r
        (.ptrv f.name :: refs, r2)
      | _ =>
        let (refs, r2) := fieldReferencesGo withKeys rest r
        (.addr f.name :: refs, r2)

/-- DbRecorder.FieldReferences: the scan destinations and the record
after the nil-pointer allocations. -/
def fieldReferences (s : DbRecorder) (withKeys : Bool) : List FieldRef × GoRecord :=
  fieldReferencesGo withKeys s.fields s.record

/-- Driver behavior of Rows.Scan / Row.Scan on success: write the row
values into the destinations in order (a pointer destination receives the
value through the pointer). -/
def writeRefs : List FieldRef → List GoValue → GoRecord → GoRecord
  | [], _, r => r
  | _, [], r => r
  | ref :: refs, v :: vs, r =>
    let r1 :=
      match ref with
      | .addr n => setField r n v
      | .ptrv n =>
        match fieldValue r n with
        | .vptrNone ty => setField r n (.vptrSome ty v)
        | .vptrSome ty _ => setField r n (.vptrSome ty v)
        | _ => r
    writeRefs refs vs r1

/-- One statement sent to the execution handle. -/
inductive DbOp where
  | dbExec (sql : String) (args : List GoValue)
  | dbQueryRow (sql : String) (args : List GoValue)
  | dbQuery (sql : String) (args : List GoValue)
deriving DecidableEq, Repr

/-- The driver-reported result of an Exec (sql.Result): LastInsertId or
the error it yields. -/
structure ExecResult where
  lastInsertId : Except String Int
deriving Repr

/-- Responses of the external execution handle to the statements an
operation may send. -/
structure Handle where
  execResult : Except String ExecResult
  rowResult : Except String (List GoValue)
deriving Repr

/-- Render of a SELECT column list (squirrel joins with comma-space). -/
def selectSql (cols : List String) (table whereSql : String) : String :=
  "SELECT " ++ String.intercalate ", " cols ++ " FROM " ++ table ++ " WHERE " ++ whereSql

/-- Render of an INSERT statement with Question placeholders (squirrel
joins insert columns with a bare comma). -/
def insertSql (table : String) (cols : List String) : String :=
  "INSERT INTO " ++ table ++ " (" ++ String.intercalate "," cols ++ ") VALUES ("
    ++ String.intercalate "," (cols.map (fun _ => "?")) ++ ")"

/-- DbRecorder.Load: compute the key predicate, take the scan
destinations via FieldReferences(false) (allocating nil non-key pointer
fields), run the SELECT of the non-key columns, and scan the row back. -/
def load (s : DbRecorder) (h : Except String (List GoValue)) :
    List DbOp × DbRecorder × Option String :=
  let wp := whereIds s
  let (refs, r1) := fieldReferencesGo false s.fields s.record
  let (wsql, wargs) := renderEq wp
  let tr := [DbOp.dbQueryRow (selectSql (colList s false false) s.table wsql) wargs]
  match h with
  | .error e => (tr, { s with record := r1 }, some e)
  | .ok row => (tr, { s with record := writeRefs refs row r1 }, none)

/-- DbRecorder.Exists: SELECT COUNT(*) > 0 under the key predicate; has
starts false and receives the scanned boolean on success. -/
def existsQ (s : DbRecorder) (h : Except String Bool) :
    List DbOp × Bool × Option String :=
  let (wsql, wargs) := renderEq (whereIds s)
  let tr := [DbOp.dbQueryRow ("SELECT COUNT(*) > 0 FROM " ++ s.table ++ " WHERE " ++ wsql) wargs]
  match h with
  | .error e => (tr, false, some e)
  | .ok b => (tr, b, none)

/-- DbRecorder.ExistsWhere: SELECT COUNT(*) > 0 under a caller-supplied
predicate; has starts false and receives the scanned boolean on success. -/
def existsWhere (s : DbRecorder) (pred : String) (args : List GoValue)
    (h : Except String Bool) : List DbOp × Bool × Option String :=
  let tr := [DbOp.dbQueryRow ("SELECT COUNT(*) > 0 FROM " ++ s.table ++ " WHERE " ++ pred) args]
  match h with
  | .error e => (tr, false, some e)
  | .ok b => (tr, b, none)

/-- DbRecorder.Delete: DELETE under the key predicate. -/
def deleteOp (s : DbRecorder) (h : Except String Unit) : List DbOp × Option String :=
  let (wsql, wargs) := renderEq (whereIds s)
  ([DbOp.dbExec ("DELETE FROM " ++ s.table ++ " WHERE " ++ wsql) wargs],
   match h with
   | .error e => some e
   | .ok _ => none)

/-- The auto-field loop of insertStd: for each descriptor flagged auto,
fetch the driver's LastInsertId (a failure is escalated to a descriptive
configuration error), require the field to be settable (otherwise a
descriptive error), and SetInt the id into it. -/
def setAutoFields (flds : List field) (ret : ExecResult) (r : GoRecord) :
    GoRecord × Option String :=
  match flds with
  | [] => (r, none)
  | f :: rest =>
    if f.isAuto then
      match ret.lastInsertId with
      | .error e =>
        (r, some ("Could not get last insert ID. Did you set the db flavor? " ++ e))
      | .ok id =>
        if canSetField r f.name then
          setAutoFields rest ret (setFieldInt r f.name id)
        else (r, some ("Could not set " ++ f.name ++ " to returned value"))
    else setAutoFields rest ret r

/-- DbRecorder.insertStd: INSERT the non-auto column/value lists, then on
success write the driver-reported last-insert id into the auto fields. -/
def insertStd (s : DbRecorder) (h : Handle) : List DbOp × DbRecorder × Option String :=
  let cv := colValLists s true false
  let tr := [DbOp.dbExec (insertSql s.table cv.1) cv.2]
  match h.execResult with
  | .error e => (tr, s, some e)
  | .ok ret =>
    let (r1, err) := setAutoFields s.fields ret s.record
    (tr, { s with record := r1 }, err)

/-- Positional Dollar placeholders used by the postgres dialect. -/
def dollarPh (n : Nat) : List String :=
  (List.range n).map (fun i => "$" ++ toString (i + 1))

/-- DbRecorder.insertPg: take the scan destinations via
FieldReferences(true), INSERT the non-auto column/value lists with a
RETURNING clause over all columns, and scan the returned row back into
the record. -/
def insertPg (s : DbRecorder) (h : Handle) : List DbOp × DbRecorder × Option String :=
  let cv := colValLists s true false
  let (refs, r1) := fieldReferencesGo true s.fields s.record
  let sql := "INSERT INTO " ++ s.table ++ " (" ++ String.intercalate "," cv.1
    ++ ") VALUES (" ++ String.intercalate "," (dollarPh cv.1.length)
    ++ ") RETURNING " ++ String.intercalate "," (colList s true false)
  let tr := [DbOp.dbQueryRow sql cv.2]
  match h.rowResult with
  | .error e => (tr, { s with record := r1 }, some e)
  | .ok row => (tr, { s with record := writeRefs refs row r1 }, none)

/-- DbRecorder.Insert: dispatch on the dialect flavor. -/
def insert (s : DbRecorder) (h : Handle) : List DbOp × DbRecorder × Option String :=
  if s.flavor == "postgres" then insertPg s h else insertStd s h

/-- DbRecorder.Update: UPDATE the SetMap from updateFields under the key
predicate.  The SET columns are rendered in sorted column order, as
squirrel renders a SetMap. -/
def update (s : DbRecorder) (h : Except String Unit) : List DbOp × Option String :=
  let upd := sortPairs (updateFields s)
  let (wsql, wargs) := renderEq (whereIds s)
  let sql := "UPDATE " ++ s.table ++ " SET "
    ++ String.intercalate ", " (upd.map (fun p => p.1 ++ " = ?"))
    ++ " WHERE " ++ wsql
  ([DbOp.dbExec sql (upd.map (fun p => p.2) ++ wargs)],
   match h with
   | .error e => some e
   | .ok _ => none)

/-- A squirrel SelectBuilder as far as the List engine exercises it: the
base column list and table composed by ListWhere, plus the pieces a
caller-supplied modifier may add. -/
structure SelectQuery where
  cols : List String
  table : String
  wherePred : Option (String × List GoValue) := none
  limit : Option Nat := none
  offset : Option Nat := none
deriving DecidableEq, Repr

/-- The base query ListWhere hands to the modifier function:
SELECT d.Columns(false) FROM d.TableName(). -/
def baseSelect (d : DbRecorder) : SelectQuery :=
  { cols := colList d false false, table := d.table }

/-- Render a SelectQuery to SQL text. -/
def renderSelect (q : SelectQuery) : String :=
  "SELECT " ++ String.intercalate ", " q.cols ++ " FROM " ++ q.table
    ++ (match q.wherePred with
        | some p => " WHERE " ++ p.1
        | none => "")
    ++ (match q.limit with
        | some n => " LIMIT " ++ toString n
        | none => "")
    ++ (match q.offset with
        | some n => " OFFSET " ++ toString n
        | none => "")

/-- The rows an executed Query yields: each row carries its values and
the error its Scan would report, plus the rows.Err() iteration error
observed after the loop. -/
structure RowsData where
  rows : List (List GoValue × Option String)
  finalErr : Option String

/-- One iteration of the ListWhere row loop: allocate a fresh recorder
and a fresh zero record of the bound record's type, Bind and Init it,
take FieldReferences(true) as scan destinations, and Scan the row into
them with the Scan error discarded (on a failed Scan the driver is
modelled as writing nothing). -/
def freshFromRow (d : DbRecorder) (row : List GoValue × Option String) : DbRecorder :=
  let rec0 := zeroRecord d.record
  let s0 := { bind (mkRecorder "") d.table rec0 with flavor := d.flavor }
  let (refs, r1) := fieldReferencesGo true s0.fields rec0
  let r2 :=
    match row.2 with
    | none => writeRefs refs row.1 r1
    | some _ => r1
  { s0 with record := r2 }

/-- ListWhere: compose the base query, let the modifier rewrite it (an
error aborts before any statement executes), run Query, and append one
freshly bound recorder per row regardless of its Scan outcome; the
returned error is the modifier's, the execution's, or rows.Err(). -/
def listWhere (d : DbRecorder) (fn : SelectQuery → Except String SelectQuery)
    (h : Except String (Option RowsData)) :
    List DbOp × List DbRecorder × Option String :=
  let q0 := baseSelect d
  match fn q0 with
  | .error e => ([], [], some e)
  | .ok q =>
    let tr := [DbOp.dbQuery (renderSelect q) ((q.wherePred.map (fun p => p.2)).getD [])]
    match h with
    | .error e => (tr, [], some e)
    | .ok none => (tr, [], none)
    | .ok (some rd) => (tr, rd.rows.map (freshFromRow d), rd.finalErr)

/-- List(d, limit, offset): ListWhere with the modifier that applies
Limit and Offset to the base query. -/
def listOp (d : DbRecorder) (lim off : Nat) (h : Except String (Option RowsData)) :
    List DbOp × List DbRecorder × Option String :=
  listWhere d (fun q => .ok { q with limit := some lim, offset := some off }) h

/-- An observable step of a hooked operation: a lifecycle hook call on
the record, or a statement reaching the execution handle. -/
inductive Event where
  | hook (name : String)
  | db (op : DbOp)
deriving DecidableEq, Repr

/-- Whether an event is a statement reaching the execution handle. -/
def isDbEvent : Event → Bool
  | .db _ => true
  | .hook _ => false

/-- Modelled from the spec: the hook-dispatching wrapper around Insert is
not present in src (src/structable.go matches a revision before the hook
dispatcher; only the hook capability interfaces, src/unnamed/part_003,
and their tests are under src), so it is modelled from the spec: before
Insert the dispatcher checks whether the bound record exposes the
BeforeInsert capability and invokes it, a non-nil result short-circuiting
the whole call before any statement executes; then the dialect-dispatched
insert runs; then the AfterInsert capability, if exposed, is invoked and
its error surfaced.  `before?` and `after?` are the outcomes of the
record's BeforeInsert/AfterInsert hooks, `none` when the record does not
implement the capability. -/
def insertWithHooks (before? after? : Option (Option String)) (s : DbRecorder)
    (h : Handle) : List Event × DbRecorder × Option String :=
  let pre : List Event × Option String :=
    match before? with
    | none => ([], none)
    | some r => ([.hook "BeforeInsert"], r)
  match pre.2 with
  | some e => (pre.1, s, some e)
  | none =>
    let (tr, s1, err) := insert s h
    let evs := pre.1 ++ tr.map Event.db
    match err with
    | some e => (evs, s1, some e)
    | none =>
      match after? with
      | none => (evs, s1, none)
      | some r => (evs ++ [.hook "AfterInsert"], s1, r)

/-- The filter colValLists applies to the descriptor list: keep a field
when keys are wanted or it is not a key, autos are wanted or it is not
auto, and its current value is not a nil pointer. -/
def keepCV (r : GoRecord) (withKeys withAutos : Bool) (f : field) : Bool :=
  (withKeys || !f.isKey) && (withAutos || !f.isAuto) && !isNilPtr (fieldValue r f.name)

/-- The argument list of a statement. -/
def DbOp.args : DbOp → List GoValue
  | .dbExec _ a => a
  | .dbQueryRow _ a => a
  | .dbQuery _ a => a

/-- Whether the named field is present on the record (reflect FieldByName
yields a non-zero Value). -/
def foundField : GoRecord → String → Bool
  | [], _ => false
  | sf :: rest, n => if sf.name == n then true else foundField rest n

/-- The scenario record of the spec: \x7bId:1 PK, Id2:2 PK, Legs:3,
Material:"Steel"\x7d. -/
def stoolRec : GoRecord :=
  [ { name := "Id", tag := "id,PRIMARY_KEY", canSet := true, value := .vint 1 },
    { name := "Id2", tag := "id_two,PRIMARY_KEY", canSet := true, value := .vint 2 },
    { name := "Legs", tag := "number_of_legs", canSet := true, value := .vint 3 },
    { name := "Material", tag := "material", canSet := true, value := .vstr "Steel" } ]

/-- The scenario record bound to table t. -/
def stoolR : DbRecorder := bindNew "mysql" "t" stoolRec

/-- A one-field record with a plain column, used to drive the hooked
Insert on the default dialect. -/
def recX : GoRecord :=
  [ { name := "X", tag := "x", canSet := true, value := .vint 5 } ]

/-- A handle whose Exec succeeds and reports last-insert id 9. -/
def hOk9 : Handle :=
  { execResult := .ok { lastInsertId := .ok 9 }, rowResult := .error "unused" }

/-- A record whose first descriptor comes from a first Bind. -/
def recA : GoRecord :=
  [ { name := "A", tag := "a", canSet := true, value := .vint 0 } ]

/-- A record whose descriptor comes from a second Bind. -/
def recB : GoRecord :=
  [ { name := "B", tag := "b", canSet := true, value := .vint 0 } ]

/-- A record with a non-key auto-generated field and a plain field. -/
def recAutoVal : GoRecord :=
  [ { name := "A", tag := "a,AUTO_INCREMENT", canSet := true, value := .vint 5 },
    { name := "X", tag := "x", canSet := true, value := .vint 1 } ]

/-- A record whose only field is a nil pointer primary key. -/
def recPtrKey : GoRecord :=
  [ { name := "P", tag := "p,PRIMARY_KEY", canSet := true, value := .vptrNone .int } ]

/-- A record with a non-nil pointer primary key and a plain field. -/
def recPtrKeySome : GoRecord :=
  [ { name := "P", tag := "p,PRIMARY_KEY", canSet := true, value := .vptrSome .int (.vint 7) },
    { name := "X", tag := "x", canSet := true, value := .vint 1 } ]

/-- A record with two primary-key fields whose columns z, a are declared
in reverse alphabetical order. -/
def recZA : GoRecord :=
  [ { name := "Z", tag := "z,PRIMARY_KEY", canSet := true, value := .vint 1 },
    { name := "A", tag := "a,PRIMARY_KEY", canSet := true, value := .vint 2 } ]

/-- A record with an int key, a nil string-pointer data field and a
non-nil int-pointer data field. -/
def recPtrData : GoRecord :=
  [ { name := "Id", tag := "id,PRIMARY_KEY", canSet := true, value := .vint 1 },
    { name := "G", tag := "g", canSet := true, value := .vptrNone .str },
    { name := "Q", tag := "q", canSet := true, value := .vptrSome .int (.vint 3) } ]

/-- A record with two auto-generated, settable int fields. -/
def recTwoAuto : GoRecord :=
  [ { name := "A", tag := "a,AUTO_INCREMENT", canSet := true, value := .vint 0 },
    { name := "B", tag := "b,AUTO_INCREMENT", canSet := true, value := .vint 0 } ]

/-! ### Helper lemmas about record field access -/

theorem fieldValue_setField_ne (r : GoRecord) (m n : String) (v : GoValue) (h : n ≠ m) :
    fieldValue (setField r m v) n = fieldValue r n := by
  induction r with
  | nil => rfl
  | cons sf rest ih =>
    by_cases hm : sf.name = m
    · have hmn : ¬(m = n) := fun hc => h hc.symm
      have hn : (sf.name == n) = false := by
        simp only [beq_eq_false_iff_ne]
        exact fun hc => h (hc ▸ hm)
      simp [setField, fieldValue, hm, hn, hmn]
    · simp only [setField, beq_iff_eq, hm, if_false]
      by_cases hn : sf.name = n
      · simp [fieldValue, hn]
      · simp [fieldValue, hn, ih]

theorem fieldValue_setField_self (r : GoRecord) (n : String) (v : GoValue)
    (h : foundField r n = true) : fieldValue (setField r n v) n = v := by
  induction r with
  | nil => simp [foundField] at h
  | cons sf rest ih =>
    by_cases hn : sf.name = n
    · simp [setField, fieldValue, hn]
    · simp only [foundField, beq_iff_eq, hn, if_false] at h
      simp [setField, fieldValue, hn, ih h]

theorem canSetField_setField (r : GoRecord) (m n : String) (v : GoValue) :
    canSetField (setField r m v) n = canSetField r n := by
  induction r with
  | nil => rfl
  | cons sf rest ih =>
    by_cases hm : sf.name = m
    · simp [setField, canSetField, hm]
    · simp only [setField, beq_iff_eq, hm, if_false]
      by_cases hn : sf.name = n
      · simp [canSetField, hn]
      · simp [canSetField, hn, ih]

theorem foundField_of_canSetField (r : GoRecord) (n : String)
    (h : canSetField r n = true) : foundField r n = true := by
  induction r with
  | nil => simp [canSetField] at h
  | cons sf rest ih =>
    by_cases hn : sf.name = n
    · simp [foundField, hn]
    · simp only [canSetField, beq_iff_eq, hn, if_false] at h
      simp [foundField, hn, ih h]

theorem foundField_of_fieldValue_ptrNone (r : GoRecord) (n : String) (ty : GoTy)
    (h : fieldValue r n = .vptrNone ty) : foundField r n = true := by
  induction r with
  | nil => simp [fieldValue] at h
  | cons sf rest ih =>
    by_cases hn : sf.name = n
    · simp [foundField, hn]
    · simp only [fieldValue, beq_iff_eq, hn, if_false] at h
      simp [foundField, hn, ih h]

/-! ### Helper lemmas about the map and list combinators -/

theorem mapInsert_of_not_mem (m : List (String × GoValue)) (k : String) (v : GoValue)
    (h : k ∉ m.map Prod.fst) : mapInsert m k v = m ++ [(k, v)] := by
  induction m with
  | nil => rfl
  | cons p rest ih =>
    simp only [List.map_cons, List.mem_cons, not_or] at h
    obtain ⟨h1, h2⟩ := h
    have : (p.1 == k) = false := by
      simp only [beq_eq_false_iff_ne]
      exact fun hc => h1 hc.symm
    cases p with
    | mk k0 v0 => simp_all [mapInsert, ih]

theorem foldl_mapInsert_of_nodup (l : List (String × GoValue)) :
    ∀ m : List (String × GoValue), (m.map Prod.fst ++ l.map Prod.fst).Nodup →
      l.foldl (fun acc p => mapInsert acc p.1 p.2) m = m ++ l := by
  induction l with
  | nil => intro m _; simp
  | cons p rest ih =>
    intro m h
    have hk : p.1 ∉ m.map Prod.fst := by
      intro hc
      exact List.disjoint_of_nodup_append h hc (by simp)
    rw [List.foldl_cons, mapInsert_of_not_mem m p.1 p.2 hk, ih (m ++ [p])]
    · simp
    · simpa [List.append_assoc] using h

theorem mapFromPairs_of_nodup (l : List (String × GoValue))
    (h : (l.map Prod.fst).Nodup) : mapFromPairs l = l := by
  simpa [mapFromPairs] using foldl_mapInsert_of_nodup l [] (by simpa using h)

theorem whereIds_of_nodup (s : DbRecorder)
    (h : (s.key.map (fun f => f.column)).Nodup) :
    whereIds s = s.key.map (fun f => (f.column, fieldValue s.record f.name)) := by
  unfold whereIds
  apply mapFromPairs_of_nodup
  simpa [List.map_map, Function.comp] using h

theorem not_mem_filter_map {α β : Type} [DecidableEq β] (l : List α) (g : α → β)
    (p : α → Bool) (x : α) (hn : (l.map g).Nodup) (hx : x ∈ l) (hp : p x = false) :
    g x ∉ (l.filter p).map g := by
  intro hmem
  obtain ⟨y, hy, hgy⟩ := List.mem_map.1 hmem
  obtain ⟨hyl, hpy⟩ := List.mem_filter.1 hy
  have : y = x := List.inj_on_of_nodup_map hn hyl hx hgy
  rw [this] at hpy
  rw [hp] at hpy
  exact absurd hpy (by simp)

theorem colValGo_eq (r : GoRecord) (wk wa : Bool) (flds : List field) :
    colValGo r wk wa flds =
      ((flds.filter (keepCV r wk wa)).map (fun f => f.column),
       (flds.filter (keepCV r wk wa)).map (fun f => fieldValue r f.name)) := by
  induction flds with
  | nil => rfl
  | cons f rest ih =>
    obtain ⟨n, c, k, a⟩ := f
    cases hv : fieldValue r n <;>
      cases k <;> cases a <;> cases wk <;> cases wa <;>
        simp_all [colValGo, keepCV, isNilPtr, List.filter]

theorem colListGo_eq (r : GoRecord) (wk om : Bool) (flds : List field) :
    colListGo r wk om flds =
      (flds.filter (fun f =>
        (wk || !f.isKey) && (!om || !isNilPtr (fieldValue r f.name)))).map
          (fun f => f.column) := by
  induction flds with
  | nil => rfl
  | cons f rest ih =>
    obtain ⟨n, c, k, a⟩ := f
    cases hv : fieldValue r n <;>
      cases k <;> cases om <;> cases wk <;>
        simp_all [colListGo, isNilPtr, List.filter]

theorem scanFieldsAux_names_sublist (r : GoRecord) :
    ((scanFieldsAux r).1.map (fun f => f.name)).Sublist
      (r.map (fun sf => sf.name)) := by
  induction r with
  | nil => simp [scanFieldsAux]
  | cons sf rest ih =>
    by_cases ht : sf.tag = ""
    · simp only [scanFieldsAux, ht, if_pos, List.map_cons]
      simp only [beq_self_eq_true, if_true]
      exact ih.cons sf.name
    · have ht' : (sf.tag == "") = false := by simpa [beq_eq_false_iff_ne] using ht
      simp only [scanFieldsAux, ht', Bool.false_eq_true, if_false, List.map_cons]
      exact ih.cons₂ sf.name

/-! ### Helper lemmas about FieldReferences -/

theorem fieldReferencesGo_skip (wk : Bool) (flds : List field) :
    ∀ (r : GoRecord) (n : String), (∀ g ∈ flds, g.name ≠ n) →
      fieldValue (fieldReferencesGo wk flds r).2 n = fieldValue r n := by
  induction flds with
  | nil => intro r n _; rfl
  | cons g rest ih =>
    intro r n h
    have hg : g.name ≠ n := h g (by simp)
    have hrest : ∀ g' ∈ rest, g'.name ≠ n := fun g' hm => h g' (by simp [hm])
    by_cases hk : (!wk && g.isKey) = true
    · simp only [fieldReferencesGo, hk, if_true]
      exact ih r n hrest
    · simp only [fieldReferencesGo, hk, Bool.false_eq_true, if_false]
      cases hv : fieldValue r g.name with
      | vptrNone ty =>
        simp only
        rw [ih (setField r g.name (.vptrSome ty (zeroBase ty))) n hrest]
        exact fieldValue_setField_ne r g.name n _ (fun hc => hg hc.symm)
      | vptrSome ty v => simpa using ih r n hrest
      | vint m => simpa using ih r n hrest
      | vstr z => simpa using ih r n hrest

theorem fieldReferencesGo_alloc (wk : Bool) (flds : List field) :
    ∀ (r : GoRecord) (f : field) (ty : GoTy),
      (flds.map (fun g => g.name)).Nodup → f ∈ flds →
      (wk || !f.isKey) = true → fieldValue r f.name = .vptrNone ty →
      fieldValue (fieldReferencesGo wk flds r).2 f.name = .vptrSome ty (zeroBase ty)
      ∧ FieldRef.ptrv f.name ∈ (fieldReferencesGo wk flds r).1 := by
  induction flds with
  | nil => intro r f ty _ hf; exact absurd hf (by simp)
  | cons g rest ih =>
    intro r f ty hn hf hkeep hv
    rw [List.map_cons, List.nodup_cons] at hn
    obtain ⟨hn1, hn2⟩ := hn
    rcases List.mem_cons.1 hf with hfg | hfr
    · subst hfg
      have hk : (!wk && f.isKey) = false := by
        cases wk <;> cases hik : f.isKey <;> simp_all
      simp only [fieldReferencesGo, hk, Bool.false_eq_true, if_false, hv]
      have hrest : ∀ g' ∈ rest, g'.name ≠ f.name := by
        intro g' hm hc
        exact hn1 (by simpa [hc] using List.mem_map_of_mem (fun x => x.name) hm)
      constructor
      · rw [fieldReferencesGo_skip wk rest _ f.name hrest]
        exact fieldValue_setField_self r f.name _
          (foundField_of_fieldValue_ptrNone r f.name ty hv)
      · simp
    · have hgf : g.name ≠ f.name := by
        intro hc
        exact hn1 (by simpa [hc] using List.mem_map_of_mem (fun x => x.name) hfr)
      by_cases hk : (!wk && g.isKey) = true
      · simp only [fieldReferencesGo, hk, if_true]
        exact ih r f ty hn2 hfr hkeep hv
      · simp only [fieldReferencesGo, hk, Bool.false_eq_true, if_false]
        cases hgv : fieldValue r g.name with
        | vptrNone ty2 =>
          have hv1 : fieldValue (setField r g.name (.vptrSome ty2 (zeroBase ty2))) f.name
              = .vptrNone ty := by
            rw [fieldValue_setField_ne r g.name f.name _ (fun hc => hgf hc.symm)]
            exact hv
          obtain ⟨ha1, ha2⟩ :=
            ih (setField r g.name (.vptrSome ty2 (zeroBase ty2))) f ty hn2 hfr hkeep hv1
          exact ⟨ha1, List.mem_cons_of_mem _ ha2⟩
        | vptrSome ty2 v =>
          obtain ⟨ha1, ha2⟩ := ih r f ty hn2 hfr hkeep hv
          exact ⟨ha1, List.mem_cons_of_mem _ ha2⟩
        | vint m =>
          obtain ⟨ha1, ha2⟩ := ih r f ty hn2 hfr hkeep hv
          exact ⟨ha1, List.mem_cons_of_mem _ ha2⟩
        | vstr z =>
          obtain ⟨ha1, ha2⟩ := ih r f ty hn2 hfr hkeep hv
          exact ⟨ha1, List.mem_cons_of_mem _ ha2⟩

/-! ### Helper lemmas about the insertStd auto-field loop -/

theorem setAutoFields_ok (ret : ExecResult) (id : Int)
    (hid : ret.lastInsertId = .ok id) (flds : List field) :
    ∀ r : GoRecord, (∀ f ∈ flds, f.isAuto = true → canSetField r f.name = true) →
      (setAutoFields flds ret r).2 = none
      ∧ (∀ n, fieldValue r n = .vint id → fieldValue (setAutoFields flds ret r).1 n = .vint id)
      ∧ (∀ f ∈ flds, f.isAuto = true → fieldValue (setAutoFields flds ret r).1 f.name = .vint id) := by
  induction flds with
  | nil =>
    intro r _
    refine ⟨rfl, fun n h => h, fun f hf => absurd hf (by simp)⟩
  | cons g rest ih =>
    intro r hcs
    by_cases hga : g.isAuto = true
    · have hcg : canSetField r g.name = true := hcs g (by simp) hga
      have hfound : foundField r g.name = true := foundField_of_canSetField r g.name hcg
      have hcs' : ∀ f ∈ rest, f.isAuto = true → canSetField (setFieldInt r g.name id) f.name = true := by
        intro f hm ha
        rw [setFieldInt, canSetField_setField]
        exact hcs f (by simp [hm]) ha
      have hset : fieldValue (setFieldInt r g.name id) g.name = .vint id :=
        fieldValue_setField_self r g.name _ hfound
      have hpres : ∀ n, fieldValue r n = .vint id →
          fieldValue (setFieldInt r g.name id) n = .vint id := by
        intro n hvn
        by_cases hne : n = g.name
        · rw [hne]; exact hset
        · rw [setFieldInt, fieldValue_setField_ne r g.name n _ hne]; exact hvn
      obtain ⟨e1, e2, e3⟩ := ih (setFieldInt r g.name id) hcs'
      refine ⟨?_, ?_, ?_⟩
      · simpa [setAutoFields, hga, hid, hcg] using e1
      · intro n hvn
        simpa [setAutoFields, hga, hid, hcg] using e2 n (hpres n hvn)
      · intro f hf ha
        rcases List.mem_cons.1 hf with hfg | hfr
        · subst hfg
          simpa [setAutoFields, hga, hid, hcg] using e2 f.name hset
        · simpa [setAutoFields, hga, hid, hcg] using e3 f hfr ha
    · have hcs' : ∀ f ∈ rest, f.isAuto = true → canSetField r f.name = true :=
        fun f hm ha => hcs f (by simp [hm]) ha
      obtain ⟨e1, e2, e3⟩ := ih r hcs'
      refine ⟨by simpa [setAutoFields, hga] using e1,
              fun n hvn => by simpa [setAutoFields, hga] using e2 n hvn, ?_⟩
      intro f hf ha
      rcases List.mem_cons.1 hf with hfg | hfr
      · subst hfg; exact absurd ha hga
      · simpa [setAutoFields, hga] using e3 f hfr ha

theorem setAutoFields_noId (ret : ExecResult) (e : String)
    (hid : ret.lastInsertId = .error e) (flds : List field) :
    ∀ r : GoRecord, (∃ f ∈ flds, f.isAuto = true) →
      (setAutoFields flds ret r).2
        = some ("Could not get last insert ID. Did you set the db flavor? " ++ e) := by
  induction flds with
  | nil => intro r h; exact absurd h (by simp)
  | cons g rest ih =>
    intro r h
    by_cases hga : g.isAuto = true
    · simp [setAutoFields, hga, hid]
    · obtain ⟨f, hf, ha⟩ := h
      rcases List.mem_cons.1 hf with hfg | hfr
      · subst hfg; exact absurd ha hga
      · simpa [setAutoFields, hga] using ih r ⟨f, hfr, ha⟩

theorem setAutoFields_noSet (ret : ExecResult) (id : Int)
    (hid : ret.lastInsertId = .ok id) (flds : List field) :
    ∀ r : GoRecord, (∃ f ∈ flds, f.isAuto = true ∧ canSetField r f.name = false) →
      ∃ n, (setAutoFields flds ret r).2
        = some ("Could not set " ++ n ++ " to returned value") := by
  induction flds with
  | nil => intro r h; exact absurd h (by simp)
  | cons g rest ih =>
    intro r h
    by_cases hga : g.isAuto = true
    · by_cases hcg : canSetField r g.name = true
      · obtain ⟨f, hf, ha, hns⟩ := h
        rcases List.mem_cons.1 hf with hfg | hfr
        · subst hfg; rw [hcg] at hns; exact absurd hns (by simp)
        · have : ∃ f ∈ rest, f.isAuto = true
              ∧ canSetField (setFieldInt r g.name id) f.name = false := by
            refine ⟨f, hfr, ha, ?_⟩
            rw [setFieldInt, canSetField_setField]
            exact hns
          obtain ⟨n, hn⟩ := ih (setFieldInt r g.name id) this
          exact ⟨n, by simpa [setAutoFields, hga, hid, hcg] using hn⟩
      · refine ⟨g.name, ?_⟩
        have hcg' : canSetField r g.name = false := by
          cases hc : canSetField r g.name
          · rfl
          · exact absurd hc hcg
        simp [setAutoFields, hga, hid, hcg']
    · obtain ⟨f, hf, ha, hns⟩ := h
      rcases List.mem_cons.1 hf with hfg | hfr
      · subst hfg; exact absurd ha hga
      · obtain ⟨n, hn⟩ := ih r ⟨f, hfr, ha, hns⟩
        exact ⟨n, by simpa [setAutoFields, hga] using hn⟩

/-! ### Order lemmas for the sorted Eq rendering -/

theorem charListLt_asymm (a : List Char) :
    ∀ b : List Char, charListLt a b = true → charListLt b a = false := by
  induction a with
  | nil =>
    intro b h
    cases b with
    | nil => simp [charListLt] at h
    | cons y ys => rfl
  | cons x xs ih =>
    intro b h
    cases b with
    | nil => simp [charListLt] at h
    | cons y ys =>
      by_cases h1 : x.toNat < y.toNat
      · have h2 : ¬ y.toNat < x.toNat := by omega
        simp [charListLt, h1, h2]
      · by_cases h2 : y.toNat < x.toNat
        · simp [charListLt, h1, h2] at h
        · simp only [charListLt, h1, h2, if_false] at h ⊢
          exact ih ys h

theorem charListLt_trans (a : List Char) :
    ∀ b c : List Char, charListLt a b = true → charListLt b c = true →
      charListLt a c = true := by
  induction a with
  | nil =>
    intro b c hab hbc
    cases b with
    | nil => simp [charListLt] at hab
    | cons y ys =>
      cases c with
      | nil => simp [charListLt] at hbc
      | cons z zs => rfl
  | cons x xs ih =>
    intro b c hab hbc
    cases b with
    | nil => simp [charListLt] at hab
    | cons y ys =>
      cases c with
      | nil => simp [charListLt] at hbc
      | cons z zs =>
        by_cases hxy : x.toNat < y.toNat
        · by_cases hyz : y.toNat < z.toNat
          · have : x.toNat < z.toNat := by omega
            simp [charListLt, this]
          · by_cases hzy : z.toNat < y.toNat
            · simp [charListLt, hyz, hzy] at hbc
            · have : x.toNat < z.toNat := by omega
              simp [charListLt, this]
        · by_cases hyx : y.toNat < x.toNat
          · simp [charListLt, hxy, hyx] at hab
          · simp only [charListLt, hxy, hyx, if_false] at hab
            by_cases hyz : y.toNat < z.toNat
            · have : x.toNat < z.toNat := by omega
              simp [charListLt, this]
            · by_cases hzy : z.toNat < y.toNat
              · simp [charListLt, hyz, hzy] at hbc
              · simp only [charListLt, hyz, hzy, if_false] at hbc
                have hxz : ¬ x.toNat < z.toNat := by omega
                have hzx : ¬ z.toNat < x.toNat := by omega
                simp only [charListLt, hxz, hzx, if_false]
                exact ih ys zs hab hbc

theorem strLt_asymm (a b : String) (h : strLt a b = true) : strLt b a = false :=
  charListLt_asymm a.data b.data h

theorem strLt_trans (a b c : String) (hab : strLt a b = true) (hbc : strLt b c = true) :
    strLt a c = true :=
  charListLt_trans a.data b.data c.data hab hbc

theorem insSorted_perm (p : String × GoValue) (l : List (String × GoValue)) :
    (insSorted p l).Perm (p :: l) := by
  induction l with
  | nil => exact List.Perm.refl [p]
  | cons q rest ih =>
    by_cases h : strLt p.1 q.1 = true
    · simp only [insSorted, h, if_true]
      exact List.Perm.refl _
    · simp only [insSorted, h, if_false]
      exact (ih.cons q).trans (List.Perm.swap p q rest)

theorem sortPairs_perm (l : List (String × GoValue)) : (sortPairs l).Perm l := by
  induction l with
  | nil => exact List.Perm.refl []
  | cons p rest ih =>
    exact (insSorted_perm p (sortPairs rest)).trans (ih.cons p)

theorem insSorted_sorted (p : String × GoValue) (l : List (String × GoValue))
    (h : List.Pairwise (fun a b : String × GoValue => strLt b.1 a.1 = false) l) :
    List.Pairwise (fun a b : String × GoValue => strLt b.1 a.1 = false) (insSorted p l) := by
  induction l with
  | nil => simp [insSorted]
  | cons q rest ih =>
    obtain ⟨hq, hrest⟩ := List.pairwise_cons.1 h
    by_cases hlt : strLt p.1 q.1 = true
    · simp only [insSorted, hlt, if_true]
      refine List.pairwise_cons.2 ⟨?_, h⟩
      intro e he
      rcases List.mem_cons.1 he with rfl | her
      · exact strLt_asymm p.1 e.1 hlt
      · cases hc : strLt e.1 p.1 with
        | false => rfl
        | true =>
          have : strLt e.1 q.1 = true := strLt_trans e.1 p.1 q.1 hc hlt
          rw [hq e her] at this
          exact absurd this (by simp)
    · simp only [insSorted, hlt, if_false]
      refine List.pairwise_cons.2 ⟨?_, ih hrest⟩
      intro e he
      have : e ∈ p :: rest := (insSorted_perm p rest).mem_iff.1 he
      rcases List.mem_cons.1 this with rfl | her
      · cases hc : strLt e.1 q.1 with
        | false => rfl
        | true => exact absurd hc hlt
      · exact hq e her

theorem sortPairs_sorted (l : List (String × GoValue)) :
    List.Pairwise (fun a b : String × GoValue => strLt b.1 a.1 = false) (sortPairs l) := by
  induction l with
  | nil => simp [sortPairs]
  | cons p rest ih => exact insSorted_sorted p (sortPairs rest) ih

/-! ### A characterization of the Update SetMap -/

theorem updateFields_eq (s : DbRecorder)
    (hn : (s.fields.map (fun g => g.column)).Nodup) :
    updateFields s = (s.fields.filter (keepCV s.record false true)).map
      (fun g => (g.column, fieldValue s.record g.name)) := by
  unfold updateFields colValLists
  rw [colValGo_eq]
  simp only
  rw [List.zip_map' (fun f : field => f.column) (fun f : field => fieldValue s.record f.name)
        (List.filter (keepCV s.record false true) s.fields)]
  apply mapFromPairs_of_nodup
  rw [List.map_map]
  have hc : (Prod.fst ∘ fun g : field => (g.column, fieldValue s.record g.name))
      = fun g : field => g.column := rfl
  rw [hc]
  exact List.Nodup.sublist ((List.filter_sublist s.fields).map (fun g => g.column)) hn

/-! ### Claim theorems -/

/-- C1: for a bound record implementing both the BeforeInsert and
AfterInsert hook capabilities, Insert invokes BeforeInsert before any
statement reaches the execution handle and AfterInsert after it; and when
BeforeInsert returns a non-nil error, Insert returns that error and the
execution handle receives zero calls. -/
theorem c1_insert_hook_ordering (s : DbRecorder) (h : Handle) (e : String)
    (ea : Option String) (tr : List DbOp) (s1 : DbRecorder) :
    (insertWithHooks (some (some e)) (some ea) s h = ([.hook "BeforeInsert"], s, some e)
      ∧ List.countP isDbEvent [Event.hook "BeforeInsert"] = 0)
    ∧ (insert s h = (tr, s1, none) →
        insertWithHooks (some none) (some ea) s h
          = (Event.hook "BeforeInsert" :: (tr.map Event.db ++ [Event.hook "AfterInsert"]),
             s1, ea)) := by
  refine ⟨⟨rfl, by decide⟩, ?_⟩
  intro hins
  simp [insertWithHooks, hins]

/-- Witness for C1 at a concrete record and handle: the hooked Insert on
the default dialect produces exactly BeforeInsert, the INSERT statement,
AfterInsert. -/
theorem c1_insert_hook_ordering_witness :
    insertWithHooks (some none) (some none) (bindNew "mysql" "t" recX) hOk9
      = (Event.hook "BeforeInsert" ::
          ([DbOp.dbExec "INSERT INTO t (x) VALUES (?)" [.vint 5]].map Event.db
            ++ [Event.hook "AfterInsert"]),
         bindNew "mysql" "t" recX, none) :=
  (c1_insert_hook_ordering (bindNew "mysql" "t" recX) hOk9 "err" none
      [DbOp.dbExec "INSERT INTO t (x) VALUES (?)" [.vint 5]]
      (bindNew "mysql" "t" recX)).2 (by decide)

/-- C2 counterexample: after Bind(t1, recA) then Bind(t2, recB) on one
recorder, the descriptor list is NOT only the fields scanned from recB:
the first scan's descriptor survives and recB's is appended, refuting
the claim that the previous descriptor list is discarded (the key subset
and record reference are replaced). -/
theorem c2_rebind_counterexample :
    (bind (bind (mkRecorder "mysql") "t1" recA) "t2" recB).fields
        ≠ (scanFieldsAux recB).1
    ∧ ((bind (bind (mkRecorder "mysql") "t1" recA) "t2" recB).fields.map
        (fun f => f.column)) = ["a", "b"]
    ∧ ((scanFieldsAux recB).1.map (fun f => f.column)) = ["b"]
    ∧ (bind (bind (mkRecorder "mysql") "t1" recA) "t2" recB).record = recB := by
  decide

/-- C2 amended: two successive Bind calls leave the table, record
reference and (when the second record yields at least one descriptor) the
key subset exactly as a fresh bind of the second record would, but the
descriptor list is the first bind's list with the second scan's
descriptors appended, not replaced. -/
theorem c2_rebind_amended (s : DbRecorder) (t1 t2 : String) (r1 r2 : GoRecord) :
    (bind (bind s t1 r1) t2 r2).table = t2
    ∧ (bind (bind s t1 r1) t2 r2).record = r2
    ∧ (bind (bind s t1 r1) t2 r2).fields
        = (bind s t1 r1).fields ++ (scanFieldsAux r2).1
    ∧ (bind (bind s t1 r1) t2 r2).key
        = (if (scanFieldsAux r2).1.isEmpty then (bind s t1 r1).key
           else (scanFieldsAux r2).2) := by
  refine ⟨rfl, rfl, rfl, rfl⟩

/-- C7: when the caller-supplied modifier function returns an error,
ListWhere returns that error and an empty result list without sending any
statement to the execution handle. -/
theorem c7_listwhere_modifier_error (d : DbRecorder)
    (fn : SelectQuery → Except String SelectQuery)
    (h : Except String (Option RowsData)) (e : String)
    (hfn : fn (baseSelect d) = .error e) :
    listWhere d fn h = ([], [], some e) := by
  simp [listWhere, hfn]

/-- Witness for C7 at a concrete recorder and modifier. -/
theorem c7_listwhere_modifier_error_witness :
    listWhere stoolR (fun _ => .error "boom") (.error "down") = ([], [], some "boom") :=
  c7_listwhere_modifier_error stoolR (fun _ => .error "boom") (.error "down") "boom" rfl

/-- C8: when the execution handle successfully evaluates the generated
SELECT COUNT(*) > 0 query, ExistsWhere returns (false, nil) when the
predicate matches zero rows and (true, nil) when it matches at least
one. -/
theorem c8_existswhere_bool (s : DbRecorder) (pred : String) (args : List GoValue)
    (matched : Nat) :
    existsWhere s pred args (.ok (decide (1 ≤ matched)))
      = ([DbOp.dbQueryRow ("SELECT COUNT(*) > 0 FROM " ++ s.table ++ " WHERE " ++ pred) args],
         decide (1 ≤ matched), none) := rfl

/-- C10: ListWhere never surfaces a per-row Scan failure: one recorder is
appended per result row whatever the rows' scan errors are, and the
returned error is exactly the rows iteration error (the scan errors do
not reach it). -/
theorem c10_listwhere_scan_errors (d : DbRecorder)
    (fn : SelectQuery → Except String SelectQuery) (q1 : SelectQuery)
    (rs : List (List GoValue × Option String)) (e : Option String)
    (hfn : fn (baseSelect d) = .ok q1) :
    (listWhere d fn (.ok (some { rows := rs, finalErr := e }))).2.2 = e
    ∧ (listWhere d fn (.ok (some { rows := rs, finalErr := e }))).2.1.length
        = rs.length := by
  simp [listWhere, hfn]

/-- Witness for C10: a row whose Scan fails still contributes a recorder
and does not surface its error. -/
theorem c10_listwhere_scan_errors_witness :
    (listWhere stoolR (fun q => .ok q)
      (.ok (some { rows := [([GoValue.vint 1], some "scanfail")], finalErr := none }))).2.2
        = none
    ∧ (listWhere stoolR (fun q => .ok q)
        (.ok (some { rows := [([GoValue.vint 1], some "scanfail")], finalErr := none }))).2.1.length
        = 1 :=
  c10_listwhere_scan_errors stoolR (fun q => .ok q) (baseSelect stoolR)
    [([GoValue.vint 1], some "scanfail")] none rfl

/-- C4 counterexample: a record with two primary-key fields whose columns
are declared z then a in descriptor order: the rendered WHERE predicate
is a = ? AND z = ? with the argument order following the sorted columns,
NOT the descriptor-order z = ? AND a = ? with args [1, 2], refuting the
claim that the equality tests come in descriptor order. -/
theorem c4_key_predicate_counterexample :
    ((bindNew "mysql" "t" recZA).key.map (fun f => f.column)) = ["z", "a"]
    ∧ renderEq (whereIds (bindNew "mysql" "t" recZA))
        = ("a = ? AND z = ?", [.vint 2, .vint 1])
    ∧ renderEq (whereIds (bindNew "mysql" "t" recZA))
        ≠ ("z = ? AND a = ?", [.vint 1, .vint 2]) := by
  decide

/-- C4 amended: for a freshly bound record whose key columns are distinct
(the descriptor-set invariant), the WhereIds map Load, Exists and Delete
all build has exactly one equality entry per key descriptor (built by
iterating the key descriptors in descriptor order, valued at the current
key fields), and the rendered predicate consists of exactly those
entries reordered into sorted (lexicographic) column order — squirrel's
Eq rendering — not descriptor order; on the scenario record bound to
table t sorted order coincides with descriptor order: the rendered
predicate is id = ? AND id_two = ? with arguments [1, 2] and Load's
column list excludes id and id_two. -/
theorem c4_key_predicate_amended :
    (∀ fl t r, ((bindNew fl t r).key.map (fun f => f.column)).Nodup →
      whereIds (bindNew fl t r)
          = (bindNew fl t r).key.map (fun f => (f.column, fieldValue r f.name))
        ∧ (whereIds (bindNew fl t r)).length = (bindNew fl t r).key.length
        ∧ (sortPairs (whereIds (bindNew fl t r))).Perm
            ((bindNew fl t r).key.map (fun f => (f.column, fieldValue r f.name)))
        ∧ List.Pairwise (fun a b : String × GoValue => strLt b.1 a.1 = false)
            (sortPairs (whereIds (bindNew fl t r)))
        ∧ renderEq (whereIds (bindNew fl t r))
            = (String.intercalate " AND "
                ((sortPairs (whereIds (bindNew fl t r))).map (fun p => p.1 ++ " = ?")),
               (sortPairs (whereIds (bindNew fl t r))).map (fun p => p.2)))
    ∧ renderEq (whereIds stoolR) = ("id = ? AND id_two = ?", [.vint 1, .vint 2])
    ∧ (load stoolR (.error "no rows")).1
        = [.dbQueryRow "SELECT number_of_legs, material FROM t WHERE id = ? AND id_two = ?"
            [.vint 1, .vint 2]]
    ∧ (existsQ stoolR (.ok true)).1
        = [.dbQueryRow "SELECT COUNT(*) > 0 FROM t WHERE id = ? AND id_two = ?"
            [.vint 1, .vint 2]]
    ∧ (deleteOp stoolR (.ok ())).1
        = [.dbExec "DELETE FROM t WHERE id = ? AND id_two = ?" [.vint 1, .vint 2]]
    ∧ colList stoolR false false = ["number_of_legs", "material"] := by
  refine ⟨?_, by decide, by decide, by decide, by decide, by decide⟩
  intro fl t r hn
  have h1 := whereIds_of_nodup (bindNew fl t r) hn
  refine ⟨h1, by rw [h1, List.length_map], ?_, sortPairs_sorted _, rfl⟩
  rw [h1] at *
  exact sortPairs_perm _

/-- Witness for C4's amended general part at the scenario record. -/
theorem c4_key_predicate_amended_witness :
    whereIds stoolR = stoolR.key.map (fun f => (f.column, fieldValue stoolRec f.name))
    ∧ (whereIds stoolR).length = stoolR.key.length
    ∧ (sortPairs (whereIds stoolR)).Perm
        (stoolR.key.map (fun f => (f.column, fieldValue stoolRec f.name)))
    ∧ List.Pairwise (fun a b : String × GoValue => strLt b.1 a.1 = false)
        (sortPairs (whereIds stoolR)) := by
  obtain ⟨h1, h2, h3, h4, _⟩ := c4_key_predicate_amended.1 "mysql" "t" stoolRec (by decide)
  exact ⟨h1, h2, h3, h4⟩

/-- C3 counterexample: a record with a non-key auto-generated field bound
to table t: updateFields, the SET clause of Update, DOES contain the
auto-generated column a with its current value, refuting the claim that
Update's SET clause never contains an auto-generated column. -/
theorem c3_auto_update_counterexample :
    ((bindNew "mysql" "t" recAutoVal).fields.map (fun f => (f.column, f.isKey, f.isAuto)))
        = [("a", false, true), ("x", false, false)]
    ∧ updateFields (bindNew "mysql" "t" recAutoVal) = [("a", .vint 5), ("x", .vint 1)]
    ∧ "a" ∈ (updateFields (bindNew "mysql" "t" recAutoVal)).map Prod.fst := by
  decide

/-- C3 amended: Insert's column and value lists exclude every
auto-generated column (on both dialects the single sent statement's
arguments are exactly colValLists(true, false)), but Update's SET clause
omits only primary-key and nil-pointer fields: an auto-generated field
that is not a primary key and holds a value does appear in the SET
clause. -/
theorem c3_auto_columns_amended :
    (∀ fl t r f, f ∈ (bindNew fl t r).fields → f.isAuto = true →
      ((bindNew fl t r).fields.map (fun g => g.column)).Nodup →
      f.column ∉ (colValLists (bindNew fl t r) true false).1)
    ∧ (∀ (s : DbRecorder) (h : Handle),
        (insert s h).1.map DbOp.args = [(colValLists s true false).2])
    ∧ (∀ fl t r f, f ∈ (bindNew fl t r).fields → f.isAuto = true → f.isKey = false →
        isNilPtr (fieldValue r f.name) = false →
        ((bindNew fl t r).fields.map (fun g => g.column)).Nodup →
        (f.column, fieldValue r f.name) ∈ updateFields (bindNew fl t r)) := by
  refine ⟨?_, ?_, ?_⟩
  · intro fl t r f hf ha hn
    have : colValLists (bindNew fl t r) true false
        = (((bindNew fl t r).fields.filter (keepCV r true false)).map (fun g => g.column),
           ((bindNew fl t r).fields.filter (keepCV r true false)).map
             (fun g => fieldValue r g.name)) := colValGo_eq r true false _
    rw [this]
    exact not_mem_filter_map _ _ _ f hn hf (by simp [keepCV, ha])
  · intro s h
    unfold insert
    by_cases hf : (s.flavor == "postgres") = true
    · simp only [hf, if_true]
      unfold insertPg
      cases hrr : h.rowResult <;> simp [hrr, DbOp.args]
    · simp only [hf, Bool.false_eq_true, if_false]
      unfold insertStd
      cases hex : h.execResult <;> simp [hex, DbOp.args]
  · intro fl t r f hf ha hk hnil hn
    have hrec : (bindNew fl t r).record = r := rfl
    rw [updateFields_eq _ hn, hrec]
    apply List.mem_map_of_mem (fun g : field => (g.column, fieldValue r g.name))
    exact List.mem_filter.2 ⟨hf, by simp [keepCV, hk, hnil]⟩

/-- Witness for C3's amended theorem at the concrete record with a
non-key auto field: the auto column a is absent from Insert's lists and
present in Update's SET map. -/
theorem c3_auto_columns_amended_witness :
    "a" ∉ (colValLists (bindNew "mysql" "t" recAutoVal) true false).1
    ∧ ("a", GoValue.vint 5) ∈ updateFields (bindNew "mysql" "t" recAutoVal) := by
  constructor
  · exact (c3_auto_columns_amended.1 "mysql" "t" recAutoVal
      { name := "A", column := "a", isKey := false, isAuto := true }
      (by decide) rfl (by decide))
  · exact (c3_auto_columns_amended.2.2 "mysql" "t" recAutoVal
      { name := "A", column := "a", isKey := false, isAuto := true }
      (by decide) rfl rfl (by decide) (by decide))

/-- C5 counterexample: a record whose only field is a nil pointer primary
key, bound to t: Load's FieldReferences(false) skips key fields, so the
field is still nil after Load (refuting that Load allocates every nil
pointer field), and the reference list is empty. -/
theorem c5_nil_pointer_counterexample :
    ((bindNew "mysql" "t" recPtrKey).fields.map (fun f => (f.column, f.isKey)))
        = [("p", true)]
    ∧ fieldValue recPtrKey "P" = .vptrNone .int
    ∧ fieldValue ((load (bindNew "mysql" "t" recPtrKey) (.ok [])).2.1.record) "P"
        = .vptrNone .int
    ∧ (fieldReferences (bindNew "mysql" "t" recPtrKey) false).1 = [] := by
  decide

/-- C5 amended: for a freshly bound record with distinct column names and
distinct field names, a mapped pointer field that is currently nil is
omitted from Insert's column and value lists; and when the field is not a
primary key, the FieldReferences(false) pass that Load performs allocates
a zero element for it, leaving the field allocated, and hands its pointer
out as a scan destination.  A nil pointer primary-key field is skipped by
that pass and stays nil. -/
theorem c5_nil_pointer_amended (fl t : String) (r : GoRecord) (f : field) (ty : GoTy)
    (hf : f ∈ (bindNew fl t r).fields)
    (hv : fieldValue r f.name = .vptrNone ty)
    (hn : ((bindNew fl t r).fields.map (fun g => g.column)).Nodup)
    (hnames : (r.map (fun sf => sf.name)).Nodup) :
    f.column ∉ (colValLists (bindNew fl t r) true false).1
    ∧ (f.isKey = false →
        fieldValue (fieldReferences (bindNew fl t r) false).2 f.name
            = .vptrSome ty (zeroBase ty)
        ∧ FieldRef.ptrv f.name ∈ (fieldReferences (bindNew fl t r) false).1) := by
  constructor
  · have : colValLists (bindNew fl t r) true false
        = (((bindNew fl t r).fields.filter (keepCV r true false)).map (fun g => g.column),
           ((bindNew fl t r).fields.filter (keepCV r true false)).map
             (fun g => fieldValue r g.name)) := colValGo_eq r true false _
    rw [this]
    exact not_mem_filter_map _ _ _ f hn hf (by simp [keepCV, hv, isNilPtr])
  · intro hk
    have hnamesf : ((bindNew fl t r).fields.map (fun g => g.name)).Nodup :=
      List.Nodup.sublist (scanFieldsAux_names_sublist r) hnames
    exact fieldReferencesGo_alloc false (bindNew fl t r).fields r f ty hnamesf hf
      (by simp [hk]) hv

/-- Witness for C5's amended theorem: a record with a non-key nil pointer
field g alongside a key: Insert omits g and Load's reference pass
allocates it. -/
theorem c5_nil_pointer_amended_witness :
    "g" ∉ (colValLists (bindNew "mysql" "t" recPtrData) true false).1
    ∧ fieldValue (fieldReferences (bindNew "mysql" "t" recPtrData) false).2 "G"
        = .vptrSome .str (.vstr "")
    ∧ FieldRef.ptrv "G" ∈ (fieldReferences (bindNew "mysql" "t" recPtrData) false).1 := by
  have h := c5_nil_pointer_amended "mysql" "t" recPtrData
    { name := "G", column := "g", isKey := false, isAuto := false } .str
    (by decide) rfl (by decide) (by decide)
  exact ⟨h.1, (h.2 rfl).1, (h.2 rfl).2⟩

/-- C6 counterexample: a record declaring two auto-generated settable
fields: insertStd succeeds (no more-than-one-auto error) and writes the
driver-reported id 9 into both fields, refuting the claim that more than
one auto-generated field is an error. -/
theorem c6_multi_auto_counterexample :
    ((bindNew "mysql" "t" recTwoAuto).fields.countP (fun f => f.isAuto)) = 2
    ∧ (insertStd (bindNew "mysql" "t" recTwoAuto) hOk9).2.2 = none
    ∧ fieldValue (insertStd (bindNew "mysql" "t" recTwoAuto) hOk9).2.1.record "A" = .vint 9
    ∧ fieldValue (insertStd (bindNew "mysql" "t" recTwoAuto) hOk9).2.1.record "B" = .vint 9 := by
  decide

/-- C6 amended: on the default dialect, after a successful INSERT
execution insertStd writes the driver-reported last-insert id into every
auto-generated settable field and returns nil (declaring several auto
fields is not an error); when the driver cannot supply a last-insert id
it returns the descriptive configuration error, and when an auto field
cannot be set it returns the descriptive could-not-set error naming a
field. -/
theorem c6_last_insert_id_amended :
    (∀ (s : DbRecorder) (ret : ExecResult) (id : Int)
        (hr : Except String (List GoValue)), ret.lastInsertId = .ok id →
      (∀ f ∈ s.fields, f.isAuto = true → canSetField s.record f.name = true) →
      (insertStd s { execResult := .ok ret, rowResult := hr }).2.2 = none
      ∧ ∀ f ∈ s.fields, f.isAuto = true →
          fieldValue (insertStd s { execResult := .ok ret, rowResult := hr }).2.1.record f.name
            = .vint id)
    ∧ (∀ (s : DbRecorder) (ret : ExecResult) (e : String)
        (hr : Except String (List GoValue)), ret.lastInsertId = .error e →
        (∃ f ∈ s.fields, f.isAuto = true) →
        (insertStd s { execResult := .ok ret, rowResult := hr }).2.2
          = some ("Could not get last insert ID. Did you set the db flavor? " ++ e))
    ∧ (∀ (s : DbRecorder) (ret : ExecResult) (id : Int)
        (hr : Except String (List GoValue)), ret.lastInsertId = .ok id →
        (∃ f ∈ s.fields, f.isAuto = true ∧ canSetField s.record f.name = false) →
        ∃ n, (insertStd s { execResult := .ok ret, rowResult := hr }).2.2
          = some ("Could not set " ++ n ++ " to returned value")) := by
  refine ⟨?_, ?_, ?_⟩
  · intro s ret id hr hid hcs
    obtain ⟨e1, e2, e3⟩ := setAutoFields_ok ret id hid s.fields s.record hcs
    exact ⟨by simpa [insertStd] using e1,
           fun f hf ha => by simpa [insertStd] using e3 f hf ha⟩
  · intro s ret e hr hid hex
    simpa [insertStd] using setAutoFields_noId ret e hid s.fields s.record hex
  · intro s ret id hr hid hex
    simpa [insertStd] using setAutoFields_noSet ret id hid s.fields s.record hex

/-- Witness for C6's amended theorem: a single settable auto field
receives the driver-reported id 4 with no error. -/
theorem c6_last_insert_id_amended_witness :
    (insertStd (bindNew "mysql" "t" recAutoVal)
        { execResult := .ok { lastInsertId := .ok 4 }, rowResult := .error "unused" }).2.2 = none
    ∧ ∀ f ∈ (bindNew "mysql" "t" recAutoVal).fields, f.isAuto = true →
        fieldValue (insertStd (bindNew "mysql" "t" recAutoVal)
          { execResult := .ok { lastInsertId := .ok 4 }, rowResult := .error "unused" }).2.1.record
            f.name = .vint 4 :=
  c6_last_insert_id_amended.1 (bindNew "mysql" "t" recAutoVal)
    { lastInsertId := .ok 4 } 4 (.error "unused") rfl (by decide)

/-- C9 counterexample: a record with a non-nil pointer primary-key field
p: Update's SetMap does NOT contain column p (updateFields excludes all
primary keys), refuting the claim that every non-nil pointer field's
column is included with the pointer as its value. -/
theorem c9_pointer_key_counterexample :
    ((bindNew "mysql" "t" recPtrKeySome).fields.map (fun f => (f.column, f.isKey)))
        = [("p", true), ("x", false)]
    ∧ fieldValue recPtrKeySome "P" = .vptrSome .int (.vint 7)
    ∧ updateFields (bindNew "mysql" "t" recPtrKeySome) = [("x", .vint 1)]
    ∧ "p" ∉ (updateFields (bindNew "mysql" "t" recPtrKeySome)).map Prod.fst := by
  decide

/-- C9 amended: for a freshly bound record with distinct column names,
Update's SetMap omits every nil pointer field, and includes a non-nil
pointer field's column with the pointer as its value exactly when the
field is not a primary key (key fields are excluded from the SET clause
whatever their value). -/
theorem c9_update_nil_omission_amended (fl t : String) (r : GoRecord) (f : field)
    (hf : f ∈ (bindNew fl t r).fields)
    (hn : ((bindNew fl t r).fields.map (fun g => g.column)).Nodup) :
    (∀ ty, fieldValue r f.name = .vptrNone ty →
      f.column ∉ (updateFields (bindNew fl t r)).map Prod.fst)
    ∧ (∀ ty v, f.isKey = false → fieldValue r f.name = .vptrSome ty v →
      (f.column, GoValue.vptrSome ty v) ∈ updateFields (bindNew fl t r)) := by
  have hrec : (bindNew fl t r).record = r := rfl
  constructor
  · intro ty hv
    rw [updateFields_eq _ hn, hrec, List.map_map]
    have hc : (Prod.fst ∘ fun g : field => (g.column, fieldValue r g.name))
        = fun g : field => g.column := rfl
    rw [hc]
    exact not_mem_filter_map _ _ _ f hn hf (by simp [keepCV, hv, isNilPtr])
  · intro ty v hk hv
    rw [updateFields_eq _ hn, hrec]
    have : (f.column, GoValue.vptrSome ty v) = (f.column, fieldValue r f.name) := by rw [hv]
    rw [this]
    apply List.mem_map_of_mem (fun g : field => (g.column, fieldValue r g.name))
    exact List.mem_filter.2 ⟨hf, by simp [keepCV, hk, hv, isNilPtr]⟩

/-- Witness for C9's amended theorem at a record with a nil pointer data
field g and a non-nil pointer data field q. -/
theorem c9_update_nil_omission_amended_witness :
    "g" ∉ (updateFields (bindNew "mysql" "t" recPtrData)).map Prod.fst
    ∧ ("q", GoValue.vptrSome .int (.vint 3)) ∈ updateFields (bindNew "mysql" "t" recPtrData) := by
  constructor
  · exact (c9_update_nil_omission_amended "mysql" "t" recPtrData
      { name := "G", column := "g", isKey := false, isAuto := false }
      (by decide) (by decide)).1 .str rfl
  · exact (c9_update_nil_omission_amended "mysql" "t" recPtrData
      { name := "Q", column := "q", isKey := false, isAuto := false }
      (by decide) (by decide)).2 .int (.vint 3) rfl rfl

end Structable
